import Mathlib

/-!
Shallow embedding of the prettyblk program (src/main.rs): a one-shot Linux
block-device visualizer.  Filesystem state (the mount table, statvfs results,
size attribute files, directory listings) is modelled as an explicit
environment record; `f64` arithmetic of the renderer is modelled exactly over
`ℚ`, with Rust `f64::round` on nonnegative values embedded as
`fun q => Int.toNat (Int.floor (q + 1/2))` (round half away from zero).
-/

namespace PrettyBlk

/-- Result of a `statvfs` call: total blocks, free blocks, block size
(fields `blocks()`, `blocks_free()`, `block_size()` in main.rs lines 31-33). -/
structure StatVfs where
  blocks : ℕ
  blocks_free : ℕ
  block_size : ℕ

/-- `struct Partition` (main.rs lines 18-22). -/
structure Partition where
  name : String
  size : ℕ
  used : Option ℕ
deriving DecidableEq

/-- `struct Drive` (main.rs lines 12-16). -/
structure Drive where
  name : String
  size : ℕ
  partitions : List Partition

/-- The ambient filesystem, read-only during one run.
`mounts` is the content of /proc/mounts (`none` when unreadable);
`statQ` is the statvfs oracle keyed by mount path (`none` on failure);
`sizeFile` is the content of /sys/block/(name)/size (`none` when unreadable);
`driveDir` lists the entries of /sys/block/(name)/. -/
structure Env where
  mounts : Option String
  statQ : String → Option StatVfs
  sizeFile : String → Option String
  driveDir : String → List String

/-- Split a character list at every occurrence of the separator character,
keeping empty pieces (the list model of Rust `str::split(char)`). -/
def splitChar (c : Char) : List Char → List (List Char)
  | [] => [[]]
  | a :: rest =>
    if a = c then [] :: splitChar c rest
    else
      match splitChar c rest with
      | h :: t => (a :: h) :: t
      | [] => [[a]]

/-- Split a character list at every whitespace character, keeping empty
pieces (they are filtered out by `lineFields`). -/
def splitWs : List Char → List (List Char)
  | [] => [[]]
  | a :: rest =>
    if a.isWhitespace then [] :: splitWs rest
    else
      match splitWs rest with
      | h :: t => (a :: h) :: t
      | [] => [[a]]

/-- Rust `str::lines`: split on a newline, strip one trailing carriage return
from each line, and drop the final empty line produced by a trailing newline. -/
def rustLines (s : String) : List String :=
  let parts := splitChar '\n' s.data
  let parts :=
    match parts.reverse with
    | [] :: rest => rest.reverse
    | _ => parts
  parts.map (fun l => String.mk (if l.getLast? = some '\r' then l.dropLast else l))

/-- Rust `split_whitespace().collect()` (main.rs line 92): split at whitespace
characters and keep only the nonempty pieces. -/
def lineFields (line : String) : List String :=
  ((splitWs line.data).filter (fun t => t ≠ [])).map String.mk

/-- `HashMap::insert`, modelled on maps as functions to `Option`:
a later insert overwrites an earlier binding of the same key. -/
def mapInsert (m : String → Option String) (k v : String) : String → Option String :=
  fun q => if q = k then some v else m q

/-- One iteration of the loop in `get_mountpoints` (main.rs lines 91-96):
when a line has at least two whitespace-separated fields, insert
(device path, mount path); otherwise leave the map unchanged. -/
def mountStep (m : String → Option String) (line : String) : String → Option String :=
  match lineFields line with
  | a :: b :: _ => mapInsert m a b
  | _ => m

/-- `get_mountpoints` (main.rs lines 88-99): on read failure the map stays
empty; otherwise fold `mountStep` over the lines of /proc/mounts. -/
def getMountpoints (mounts : Option String) : String → Option String :=
  match mounts with
  | none => fun _ => none
  | some content => (rustLines content).foldl mountStep (fun _ => none)

/-- Specification-side description of `get_mountpoints`: the mount path of the
LAST line whose first field is the queried device path (later lines take
precedence over earlier ones). -/
def lastMount : List String → String → Option String
  | [], _ => none
  | line :: rest, k =>
    match lastMount rest k with
    | some v => some v
    | none =>
      match lineFields line with
      | a :: b :: _ => if a = k then some b else none
      | _ => none

/-- The numeric value of an ASCII digit character. -/
def digitVal (c : Char) : Option ℕ :=
  if 48 ≤ c.toNat ∧ c.toNat ≤ 57 then some (c.toNat - 48) else none

/-- Accumulate the decimal value of a digit string; `none` at the first
character that is not an ASCII digit. -/
def charsToNatAux : ℕ → List Char → Option ℕ
  | acc, [] => some acc
  | acc, c :: rest =>
    match digitVal c with
    | some d => charsToNatAux (acc * 10 + d) rest
    | none => none

/-- Rust `str::parse::<u64>`: an optional leading plus sign, then one or more
decimal digits, rejecting values outside the u64 range. -/
def parseU64 (s : String) : Option ℕ :=
  let t := if s.data.head? = some '+' then s.data.drop 1 else s.data
  if t.isEmpty then none
  else
    match charsToNatAux 0 t with
    | some n => if n < 2 ^ 64 then some n else none
    | none => none

/-- Rust `str::trim`: drop whitespace from both ends. -/
def strTrim (s : String) : String :=
  String.mk (((s.data.dropWhile Char.isWhitespace).reverse.dropWhile Char.isWhitespace).reverse)

/-- `read_size` (main.rs lines 72-75): propagate a read failure, but map an
unparsable size file to `Ok(0)` via `unwrap_or(0)` on the parse. -/
def readSize (env : Env) (name : String) : Option ℕ :=
  (env.sizeFile name).map (fun file => (parseU64 (strTrim file)).getD 0)

/-- Rust `str::starts_with`. -/
def strStarts (s p : String) : Bool :=
  List.isPrefixOf p.data s.data

/-- The device path derived in main.rs lines 29 and 165:
"/dev/" followed by the last slash-separated component of the name. -/
def devName (name : String) : String :=
  "/dev/" ++ String.mk ((splitChar '/' name.data).getLast?.getD name.data)

/-- Bytes used as computed from a statvfs result (main.rs lines 32-34):
`blocks * block_size - blocks_free * block_size`. -/
def statUsed (stat : StatVfs) : ℕ :=
  stat.blocks * stat.block_size - stat.blocks_free * stat.block_size

/-- `Partition::new` (main.rs lines 24-44). -/
def Partition.new (env : Env) (name : String) : Partition :=
  let size := (readSize env name).getD 0
  let mountpoints := getMountpoints env.mounts
  let dev := devName name
  let used := (mountpoints dev).bind (fun mount => (env.statQ mount).map statUsed)
  { name := name, size := size, used := used }

/-- `get_partitions` (main.rs lines 56-70): keep the directory entries whose
name starts with the drive name and build a Partition from
"(drive name)/(entry name)" for each. -/
def get_partitions (env : Env) (entries : List String) (name : String) : List Partition :=
  (entries.filter (fun e => strStarts e name)).map
    (fun e => Partition.new env (name ++ "/" ++ e))

/-- `Drive::new` (main.rs lines 46-54). -/
def Drive.new (env : Env) (name : String) : Drive :=
  { name := name
    size := (readSize env name).getD 0
    partitions := get_partitions env (env.driveDir name) name }

/-- `read_drives` (main.rs lines 77-86): drop the entries of /sys/block whose
name starts with "dm", build a Drive from each remaining entry. -/
def read_drives (env : Env) (entries : List String) : List Drive :=
  (entries.filter (fun n => ¬ strStarts n "dm")).map (Drive.new env)

/-- Rust `f64::round` cast `as usize`, for a nonnegative rational:
round half away from zero, i.e. the floor of `q + 1/2`. -/
def rroundNat (q : ℚ) : ℕ :=
  (Int.floor (q + 1/2)).toNat

/-- Rust float formatting rounds half to even; `rhe q` is the integer that
`q` rounds to under that rule. -/
def rhe (q : ℚ) : ℤ :=
  let f := Int.floor q
  if q - f = 1/2 then (if f % 2 = 0 then f else f + 1) else Int.floor (q + 1/2)

/-- Rust `format` with precision 1 (`{:.1}`) on a nonnegative float. -/
def fmt1 (q : ℚ) : String :=
  let n := (rhe (q * 10)).toNat
  toString (n / 10) ++ "." ++ toString (n % 10)

/-- Rust `format` with precision 2 (`{:.2}`) on a nonnegative float. -/
def fmt2 (q : ℚ) : String :=
  let n := (rhe (q * 100)).toNat
  toString (n / 100) ++ "." ++ (if n % 100 < 10 then "0" else "") ++ toString (n % 100)

/-- Rust `f64::clamp`. -/
def clampQ (x lo hi : ℚ) : ℚ :=
  min (max x lo) hi

/-- `str::repeat`: `n` copies of `s` concatenated. -/
def repeatStr (s : String) : ℕ → String
  | 0 => ""
  | n + 1 => s ++ repeatStr s n

/-- The symbol palette of the aggregate bar (main.rs line 113). -/
def symbols : List String :=
  ["█", "▓", "▒", "░"]

/-- `symbols[i % symbols.len()]` (main.rs line 123). -/
def symbolFor (i : ℕ) : String :=
  symbols.get! (i % symbols.length)

/-- One iteration of the aggregate-bar loop (main.rs lines 116-128), acting on
the accumulator (segments drawn so far as (partition index, width) pairs,
cumulative used width).  `t` is `total_size = max(drive.size, 1)`. -/
def aggStep (width t : ℕ) (acc : List (ℕ × ℕ) × ℕ) (ip : ℕ × Partition) : List (ℕ × ℕ) × ℕ :=
  let w := min (rroundNat ((ip.2.size : ℚ) / (t : ℚ) * (width : ℚ))) (width - acc.2)
  if w = 0 then acc else (acc.1 ++ [(ip.1, w)], acc.2 + w)

/-- The aggregate-bar pass of `print_drive_chart` (main.rs lines 102-128):
the list of drawn segments and the final `used_width`. -/
def aggBar (drive : Drive) (width : ℕ) : List (ℕ × ℕ) × ℕ :=
  drive.partitions.enum.foldl (aggStep width (max drive.size 1)) ([], 0)

/-- The characters printed for a list of segments: each segment is its symbol
repeated `width` times (main.rs lines 123-126). -/
def segString : List (ℕ × ℕ) → String
  | [] => ""
  | q :: rest => repeatStr (symbolFor q.1) q.2 ++ segString rest

/-- The interior of the bracketed aggregate bar: the segments, then blank
padding when the used width falls short of the chart width
(main.rs lines 111-134). -/
def barInterior (drive : Drive) (width : ℕ) : String :=
  segString (aggBar drive width).1 ++ repeatStr " " (width - (aggBar drive width).2)

/-- Specification-side divisor: `drive.size`, except that 1 is substituted
when `drive.size = 0`. -/
def specDivisor (driveSize : ℕ) : ℕ :=
  if driveSize = 0 then 1 else driveSize

/-- Specification-side allocation sequence: each partition's width is
`round(size / divisor * width)` clamped to the width still unallocated,
and every width (including zero) advances the running allocation. -/
def specAllocFrom (t width : ℕ) : ℕ → List ℕ → List ℕ
  | _, [] => []
  | used, s :: rest =>
    let w := min (rroundNat ((s : ℚ) / (t : ℚ) * (width : ℚ))) (width - used)
    w :: specAllocFrom t width (used + w) rest

/-- The filled-cell count of the detail-table mini usage bar
(main.rs lines 155-157), including the f64 division-by-zero cases the code
does not guard against: with `total_bytes = 0` and `used > 0` the ratio is
positive infinity, `clamp(0.0, 1.0)` yields 1 and all 20 cells fill; with
`used = 0` as well the ratio is NaN, which stays NaN through clamp, times 20
and round, and casts to 0 `as usize`.  With a nonzero denominator the f64
computation is modelled exactly over `ℚ`. -/
def usageFilled (size u : ℕ) : ℕ :=
  if size * 512 = 0 then (if u = 0 then 0 else 20)
  else rroundNat (clampQ ((u : ℚ) / ((size * 512 : ℕ) : ℚ)) 0 1 * 20)

/-- The detail-table usage column (main.rs lines 154-162): a 20-cell bar for a
mounted partition, the literal "Unmounted" otherwise. -/
def usageBar (p : Partition) : String :=
  match p.used with
  | some u => repeatStr "█" (usageFilled p.size u) ++ repeatStr "░" (20 - usageFilled p.size u)
  | none => "Unmounted"

/-- `used_gb` (main.rs line 148): used bytes over 1024 cubed, 0 when absent. -/
def usedGbQ (p : Partition) : ℚ :=
  (p.used.map (fun u => (u : ℚ) / 1024 ^ 3)).getD 0

/-- `size_gb` (main.rs line 147): sectors times 512 over 1024 cubed. -/
def sizeGbQ (p : Partition) : ℚ :=
  (p.size : ℚ) * 512 / 1024 ^ 3

/-- Rust `Iterator::max`: `none` on an empty list. -/
def iterMax : List ℕ → Option ℕ
  | [] => none
  | x :: xs => some (xs.foldl max x)

/-- `name_width` (main.rs lines 136-141): the longest partition name,
defaulting to 0 for a drive without partitions. -/
def nameWidth (drive : Drive) : ℕ :=
  (iterMax (drive.partitions.map (fun p => p.name.length))).getD 0

/-- The textual fields of one detail line (main.rs lines 145-179),
colors omitted as presentation. -/
structure DetailLine where
  nameStr : String
  usage : String
  sizeStr : String
  mountpoint : String
deriving DecidableEq

/-- The used/total text before right-alignment (main.rs line 151). -/
def sizeText (p : Partition) : String :=
  fmt1 (usedGbQ p) ++ " / " ++ fmt1 (sizeGbQ p) ++ " GB"

/-- One detail line (main.rs lines 145-179): name left-padded to the common
column width, the usage bar, the used/total text right-aligned to 18 cells,
and the mount path re-resolved from the mount table with "-" when absent. -/
def detailLine (env : Env) (nw : ℕ) (p : Partition) : DetailLine :=
  { nameStr := p.name ++ repeatStr " " (nw - p.name.length)
    usage := usageBar p
    sizeStr := repeatStr " " (18 - (sizeText p).length) ++ sizeText p
    mountpoint := (getMountpoints env.mounts (devName p.name)).getD "-" }

/-- The output of `print_drive_chart` for one drive: header line, bracketed
aggregate bar, detail lines. -/
structure RenderedDrive where
  header : String
  bar : String
  details : List DetailLine

/-- The header line (main.rs lines 105-110). -/
def driveHeader (drive : Drive) : String :=
  "Drive: " ++ drive.name ++ " (" ++ fmt2 ((drive.size : ℚ) * 512 / 1024 ^ 3) ++ " GB)"

/-- `print_drive_chart` (main.rs lines 101-180) as a pure rendering. -/
def renderDrive (env : Env) (drive : Drive) (width : ℕ) : RenderedDrive :=
  { header := driveHeader drive
    bar := "[" ++ barInterior drive width ++ "]"
    details := drive.partitions.map (detailLine env (nameWidth drive)) }

/-- An environment in which every filesystem read fails and every directory
is empty. -/
def env0 : Env :=
  ⟨none, fun _ => none, fun _ => none, fun _ => []⟩

/-- An environment whose mount table maps /dev/sda1 to /mnt and whose statvfs
oracle answers for /mnt. -/
def envW : Env :=
  ⟨some "/dev/sda1 /mnt", fun s => if s = "/mnt" then some ⟨100, 40, 512⟩ else none,
    fun _ => none, fun _ => []⟩

/-- An environment with an unreadable mount table. -/
def envU : Env :=
  ⟨none, fun _ => none, fun _ => none, fun _ => []⟩

/-- An environment whose size attribute files hold unparsable text. -/
def envP : Env :=
  ⟨none, fun _ => none, fun _ => some "notanumber", fun _ => []⟩

/-- A drive with no partitions. -/
def drive0 : Drive :=
  ⟨"sda", 0, []⟩

lemma repeatStr_length (s : String) (n : ℕ) : (repeatStr s n).length = n * s.length := by
  induction n with
  | zero => simp [repeatStr]
  | succ m ih => simp [repeatStr, String.length_append, ih]; ring

lemma symbolFor_length (i : ℕ) : (symbolFor i).length = 1 := by
  have h4 : i % symbols.length < 4 := Nat.mod_lt _ (by decide)
  have h : i % symbols.length = 0 ∨ i % symbols.length = 1 ∨
      i % symbols.length = 2 ∨ i % symbols.length = 3 := by omega
  unfold symbolFor
  rcases h with h | h | h | h <;> rw [h] <;> decide

lemma segString_length (segs : List (ℕ × ℕ)) :
    (segString segs).length = (segs.map (fun q => q.2)).sum := by
  induction segs with
  | nil => rfl
  | cons q rest ih =>
    simp [segString, String.length_append, repeatStr_length, symbolFor_length, ih]

lemma aggStep_inv (width t : ℕ) (l : List (ℕ × Partition)) (acc : List (ℕ × ℕ) × ℕ)
    (h1 : (acc.1.map (fun q => q.2)).sum = acc.2) (h2 : acc.2 ≤ width) :
    ((l.foldl (aggStep width t) acc).1.map (fun q => q.2)).sum =
        (l.foldl (aggStep width t) acc).2 ∧
      (l.foldl (aggStep width t) acc).2 ≤ width := by
  induction l generalizing acc with
  | nil => exact ⟨h1, h2⟩
  | cons ip rest ih =>
    simp only [List.foldl_cons]
    apply ih
    · simp only [aggStep]
      split
      · exact h1
      · simp [h1]
    · simp only [aggStep]
      split
      · exact h2
      · simp only []
        omega

lemma agg_spec (width t : ℕ) (parts : List Partition) :
    ∀ (k : ℕ) (segs : List (ℕ × ℕ)) (used : ℕ),
    (parts.enumFrom k).foldl (aggStep width t) (segs, used) =
      (segs ++ ((specAllocFrom t width used (parts.map Partition.size)).enumFrom k).filter
          (fun q => decide (q.2 ≠ 0)),
        used + (specAllocFrom t width used (parts.map Partition.size)).sum) := by
  induction parts with
  | nil => simp [specAllocFrom]
  | cons p rest ih =>
    intro k segs used
    simp only [List.enumFrom, List.foldl_cons, List.map_cons, specAllocFrom]
    by_cases hw : min (rroundNat ((p.size : ℚ) / (t : ℚ) * (width : ℚ))) (width - used) = 0
    · rw [show aggStep width t (segs, used) (k, p) = (segs, used) by
        simp only [aggStep]; rw [if_pos hw]]
      rw [ih (k + 1) segs used]
      simp [List.enumFrom, hw]
    · rw [show aggStep width t (segs, used) (k, p) =
          (segs ++ [(k, min (rroundNat ((p.size : ℚ) / (t : ℚ) * (width : ℚ))) (width - used))],
            used + min (rroundNat ((p.size : ℚ) / (t : ℚ) * (width : ℚ))) (width - used)) by
        simp only [aggStep]; rw [if_neg hw]]
      rw [ih (k + 1)]
      simp [List.enumFrom, hw]
      omega

lemma foldl_mountStep (l : List String) (k : String) :
    ∀ m : String → Option String,
      (l.foldl mountStep m) k =
        match lastMount l k with
        | some v => some v
        | none => m k := by
  induction l with
  | nil => intro m; simp [lastMount]
  | cons line rest ih =>
    intro m
    simp only [List.foldl_cons, lastMount]
    rw [ih]
    cases h : lastMount rest k with
    | some v => simp
    | none =>
      simp only []
      unfold mountStep
      cases hf : lineFields line with
      | nil => simp
      | cons a tail =>
        cases tail with
        | nil => simp
        | cons b rest2 =>
          simp only [mapInsert]
          by_cases hk : a = k
          · subst hk; simp
          · rw [if_neg (fun hh => hk hh.symm), if_neg hk]

lemma rroundNat_le {q : ℚ} {n : ℕ} (h : q ≤ (n : ℚ)) : rroundNat q ≤ n := by
  unfold rroundNat
  have hf : Int.floor (q + 1/2) < (n : ℤ) + 1 := by
    apply Int.floor_lt.mpr
    push_cast
    linarith
  exact Int.toNat_le.mpr (by omega)

lemma usageFilled_le (size u : ℕ) : usageFilled size u ≤ 20 := by
  unfold usageFilled clampQ
  split
  · split <;> omega
  · apply rroundNat_le
    have h1 : min (max ((u : ℚ) / ((size * 512 : ℕ) : ℚ)) 0) 1 ≤ 1 := min_le_right _ _
    push_cast
    push_cast at h1
    nlinarith

lemma fmt1_zero : fmt1 0 = "0.0" := by
  have h : rhe (0 * 10) = 0 := by
    norm_num [rhe]
  rw [fmt1, h]
  decide

lemma str_empty_append (s : String) : "" ++ s = s := by
  cases s
  rfl

/-- Claim C1: for every drive and chart width, the cumulative sum of the
aggregate-bar segment widths never exceeds the chart width, and the bar
interior is the segments followed by blank padding, so its length is exactly
the chart width. -/
theorem aggregate_bar_width_invariant (drive : Drive) (width : ℕ) :
    ((aggBar drive width).1.map (fun q => q.2)).sum = (aggBar drive width).2 ∧
      (aggBar drive width).2 ≤ width ∧
      (barInterior drive width).length = width ∧
      barInterior drive width =
        segString (aggBar drive width).1 ++ repeatStr " " (width - (aggBar drive width).2) := by
  have h := aggStep_inv width (max drive.size 1) drive.partitions.enum ([], 0) (by simp) (by simp)
  refine ⟨h.1, h.2, ?_, rfl⟩
  have hone : (" ").length = 1 := rfl
  have hlen : (barInterior drive width).length =
      (segString (aggBar drive width).1).length + (width - (aggBar drive width).2) := by
    simp [barInterior, String.length_append, repeatStr_length, hone]
  rw [hlen, segString_length]
  have h2 := h.2
  have h1 := h.1
  unfold aggBar at *
  omega

/-- Claim C2: bytes used is computed as
(total blocks minus free blocks) times block size from the statistics of the
partition's mount path, and a failing statistics query yields `none` rather
than an abort (the embedding is total). -/
theorem usage_probe_formula :
    (∀ st : StatVfs, statUsed st = (st.blocks - st.blocks_free) * st.block_size) ∧
      (∀ env name mount, getMountpoints env.mounts (devName name) = some mount →
        (Partition.new env name).used = (env.statQ mount).map statUsed) ∧
      (∀ env name mount, getMountpoints env.mounts (devName name) = some mount →
        env.statQ mount = none → (Partition.new env name).used = none) := by
  refine ⟨?_, ?_, ?_⟩
  · intro st
    unfold statUsed
    rw [Nat.sub_mul]
  · intro env name mount h
    simp [Partition.new, h]
  · intro env name mount h h2
    simp [Partition.new, h, h2]

/-- Witness for claim C2 at a concrete environment: a partition mounted at
/mnt with 100 blocks, 40 free, block size 512 gets used = 30720 bytes. -/
theorem usage_probe_formula_witness :
    (Partition.new envW "sda/sda1").used = some 30720 ∧
      statUsed ⟨100, 40, 512⟩ = (100 - 40) * 512 := by
  constructor
  · have h := usage_probe_formula.2.1 envW "sda/sda1" "/mnt" (by decide)
    rw [h]
    decide
  · exact usage_probe_formula.1 ⟨100, 40, 512⟩

/-- Claim C3: the aggregate bar drawn by the renderer consists exactly of the
nonzero entries of the specification allocation sequence, in which each
partition's width is round(size / divisor * chart width) clamped to the
remaining unallocated width, with divisor drive.size except that 1 is
substituted when drive.size is 0; zero-width entries are skipped. -/
theorem aggregate_segment_allocation (drive : Drive) (width : ℕ) :
    aggBar drive width =
      (((specAllocFrom (specDivisor drive.size) width 0
            (drive.partitions.map Partition.size)).enum).filter (fun q => decide (q.2 ≠ 0)),
        (specAllocFrom (specDivisor drive.size) width 0
          (drive.partitions.map Partition.size)).sum) := by
  have hd : max drive.size 1 = specDivisor drive.size := by
    unfold specDivisor
    rcases Nat.eq_zero_or_pos drive.size with h | h
    · simp [h]
    · rw [if_neg (by omega)]
      omega
  unfold aggBar
  rw [hd]
  have h := agg_spec width (specDivisor drive.size) drive.partitions 0 [] 0
  simpa [List.enum] using h

/-- Claim C4 counterexample: for drive "sda" with directory entry "sda1", the
constructed partition's name is "sda/sda1", not the bare entry name "sda1". -/
theorem partition_name_bare_cex :
    (get_partitions env0 ["sda1"] "sda").map Partition.name = ["sda/sda1"] ∧
      ¬ ((get_partitions env0 ["sda1"] "sda").map Partition.name = ["sda1"]) := by
  constructor <;> decide

/-- Claim C4 as amended: every partition constructed by the discoverer has
name equal to the drive name, a slash, and the directory-entry name. -/
theorem partition_name_prefixed (env : Env) (entries : List String) (name : String) :
    (get_partitions env entries name).map Partition.name =
      (entries.filter (fun e => strStarts e name)).map (fun e => name ++ "/" ++ e) := by
  simp [get_partitions, List.map_map]
  intro a _ _
  rfl

/-- Claim C5: the mountpoint resolver returns the mount path of the last
mount-table line naming the queried device path, and an unreadable mount
table yields the empty mapping. -/
theorem mountpoints_last_wins :
    (∀ k, getMountpoints none k = none) ∧
      ∀ content k, getMountpoints (some content) k = lastMount (rustLines content) k := by
  constructor
  · intro k; rfl
  · intro content k
    change ((rustLines content).foldl mountStep (fun _ => none)) k = _
    rw [foldl_mountStep]
    cases lastMount (rustLines content) k <;> rfl

/-- Claim C6: the mini usage bar of a mounted partition is exactly 20 cells;
for a partition with nonzero total bytes its filled-cell count is
round(clamp(used over total bytes, 0, 1) * 20), and at total bytes 0 the
unguarded f64 division makes the code fill all 20 cells when used is
positive (infinity clamps to 1) and 0 cells when used is 0 (NaN casts to 0);
a partition at ratio one half fills exactly 10 cells, and an absent used
value renders the literal "Unmounted". -/
theorem mini_usage_bar_spec :
    (∀ p : Partition, ∀ u, p.used = some u →
        usageBar p = repeatStr "█" (usageFilled p.size u) ++
            repeatStr "░" (20 - usageFilled p.size u) ∧
          (usageBar p).length = 20 ∧
          (p.size ≠ 0 →
            usageFilled p.size u =
              rroundNat (clampQ ((u : ℚ) / ((p.size * 512 : ℕ) : ℚ)) 0 1 * 20)) ∧
          (p.size = 0 → usageFilled p.size u = if u = 0 then 0 else 20)) ∧
      (∀ p : Partition, p.used = none → usageBar p = "Unmounted") ∧
      usageFilled 2097152 536870912 = 10 := by
  refine ⟨?_, ?_, ?_⟩
  · intro p u h
    refine ⟨by simp [usageBar, h], ?_, ?_, ?_⟩
    · have hle := usageFilled_le p.size u
      have h1 : ("█").length = 1 := rfl
      have h2 : ("░").length = 1 := rfl
      simp [usageBar, h, String.length_append, repeatStr_length, h1, h2]
      omega
    · intro hz
      unfold usageFilled
      rw [if_neg (Nat.mul_ne_zero hz (by norm_num))]
    · intro hz
      simp [usageFilled, hz]
  · intro p h
    simp [usageBar, h]
  · norm_num [usageFilled, clampQ, rroundNat]
    decide

/-- Witness for claim C6: a partition of 2097152 sectors with 536870912 bytes
used (ratio one half) renders 10 filled and 10 empty cells; a mounted
partition of size 0 with 5 bytes used fills all 20 cells; an unmounted one
renders "Unmounted". -/
theorem mini_usage_bar_spec_witness :
    usageBar ⟨"sda/sda1", 2097152, some 536870912⟩ =
        repeatStr "█" 10 ++ repeatStr "░" 10 ∧
      usageFilled 0 5 = 20 ∧
      usageBar ⟨"sda/sda1", 2097152, none⟩ = "Unmounted" := by
  refine ⟨?_, ?_, mini_usage_bar_spec.2.1 ⟨"sda/sda1", 2097152, none⟩ rfl⟩
  · have h := mini_usage_bar_spec.1 ⟨"sda/sda1", 2097152, some 536870912⟩ 536870912 rfl
    rw [h.1, mini_usage_bar_spec.2.2]
  · have h := mini_usage_bar_spec.1 ⟨"sda1", 0, some 5⟩ 5 rfl
    have h0 := h.2.2.2 rfl
    simpa using h0

/-- Claim C7: a partition whose device path is absent from the mount mapping
keeps used = none in the data model, shows mount path "-" and the
"Unmounted" indicator on its detail line, and its used amount renders as
"0.0". -/
theorem unmounted_partition_detail (env : Env) (name : String)
    (h : getMountpoints env.mounts (devName name) = none) :
    (Partition.new env name).used = none ∧
      (∀ w, (detailLine env w (Partition.new env name)).mountpoint = "-" ∧
        (detailLine env w (Partition.new env name)).usage = "Unmounted") ∧
      fmt1 (usedGbQ (Partition.new env name)) = "0.0" := by
  have hused : (Partition.new env name).used = none := by
    simp [Partition.new, h]
  refine ⟨hused, ?_, ?_⟩
  · intro w
    constructor
    · simp [detailLine, Partition.new, h]
    · simp [detailLine, usageBar, hused]
  · rw [show usedGbQ (Partition.new env name) = 0 by simp [usedGbQ, hused]]
    exact fmt1_zero

/-- Witness for claim C7 at a concrete environment with an unreadable mount
table. -/
theorem unmounted_partition_detail_witness :
    (Partition.new envU "sda/sda1").used = none ∧
      (detailLine envU 8 (Partition.new envU "sda/sda1")).mountpoint = "-" ∧
      (detailLine envU 8 (Partition.new envU "sda/sda1")).usage = "Unmounted" ∧
      fmt1 (usedGbQ (Partition.new envU "sda/sda1")) = "0.0" := by
  have h := unmounted_partition_detail envU "sda/sda1" rfl
  exact ⟨h.1, (h.2.1 8).1, (h.2.1 8).2, h.2.2⟩

/-- Claim C8: drive discovery excludes exactly the entries whose name starts
with "dm" and builds a Drive from every other entry; with entries "sda" and
"dm-0" only "sda" survives. -/
theorem dm_drives_excluded :
    (∀ env entries, (read_drives env entries).map Drive.name =
      entries.filter (fun n => ¬ strStarts n "dm")) ∧
      (read_drives env0 ["sda", "dm-0"]).map Drive.name = ["sda"] := by
  constructor
  · intro env entries
    simp [read_drives, List.map_map]
    rw [show (Drive.name ∘ Drive.new env) = fun n : String => n from rfl]
    exact List.map_id' _
  · decide

/-- Claim C9: an unreadable or unparsable size attribute is non-fatal: the
size becomes 0 while the rest of the Drive or Partition is constructed
exactly as usual. -/
theorem unreadable_size_nonfatal (env : Env) (name : String)
    (h : env.sizeFile name = none ∨
      ∃ s, env.sizeFile name = some s ∧ parseU64 (strTrim s) = none) :
    (Drive.new env name).size = 0 ∧ (Drive.new env name).name = name ∧
      (Drive.new env name).partitions = get_partitions env (env.driveDir name) name ∧
      (Partition.new env name).size = 0 ∧ (Partition.new env name).name = name ∧
      (Partition.new env name).used =
        (getMountpoints env.mounts (devName name)).bind
          (fun m => (env.statQ m).map statUsed) := by
  have hs : (readSize env name).getD 0 = 0 := by
    rcases h with h | ⟨s, hsf, hp⟩
    · simp [readSize, h]
    · simp [readSize, hsf, hp]
  exact ⟨hs, rfl, rfl, hs, rfl, rfl⟩

/-- Witness for claim C9 at an environment whose size files hold unparsable
text. -/
theorem unreadable_size_nonfatal_witness :
    (Drive.new envP "sda").size = 0 ∧ (Partition.new envP "sda").size = 0 := by
  have h := unreadable_size_nonfatal envP "sda" (Or.inr ⟨"notanumber", rfl, by decide⟩)
  exact ⟨h.1, h.2.2.2.1⟩

/-- Claim C10: rendering a drive without partitions yields the header, a bar
interior of exactly chart-width blank cells, no detail lines, and a name
column width of 0. -/
theorem empty_drive_renders (env : Env) (drive : Drive) (width : ℕ)
    (h : drive.partitions = []) :
    (renderDrive env drive width).header = driveHeader drive ∧
      (renderDrive env drive width).bar = "[" ++ repeatStr " " width ++ "]" ∧
      (renderDrive env drive width).details = [] ∧
      nameWidth drive = 0 := by
  have hbar : aggBar drive width = ([], 0) := by
    unfold aggBar
    rw [h]
    rfl
  refine ⟨rfl, ?_, ?_, ?_⟩
  · show "[" ++ barInterior drive width ++ "]" = _
    rw [show barInterior drive width = segString (aggBar drive width).1 ++
        repeatStr " " (width - (aggBar drive width).2) from rfl, hbar]
    rw [show segString ([] : List (ℕ × ℕ)) = "" from rfl, str_empty_append, Nat.sub_zero]
  · simp [renderDrive, h]
  · simp [nameWidth, h, iterMax]

/-- Witness for claim C10 at a concrete empty drive and chart width 7. -/
theorem empty_drive_renders_witness :
    (renderDrive envU drive0 7).bar = "[" ++ repeatStr " " 7 ++ "]" ∧
      (renderDrive envU drive0 7).details = [] ∧ nameWidth drive0 = 0 := by
  have h := empty_drive_renders envU drive0 7 rfl
  exact ⟨h.2.1, h.2.2.1, h.2.2.2⟩

end PrettyBlk
